import Mathlib

/-!
# Verification of the MLB team-timeline core (`mlb_team_timeline_app.py`)

This file gives a shallow embedding, in Lean 4, of the computational core of
the application: the tenure-block extractor (`get_player_team_blocks`), the
fuzzy franchise resolver (`get_franchise_code_from_input`), the static
franchise directories (`TEAM_COLORS`, `OFFICIAL_TEAM_NAMES`, `TEAM_NAMES`),
and the roster filter inlined in `main` (modelled here as
`players_exclusive_to`).

Modelling conventions:
* Dataframes are lists of typed records (`PersonRow`, `BattingRow`,
  `TeamRow`).  Column-name lowercasing is a no-op in the typed model.
* Season years are `Int` (Python integers are unbounded and the scan
  computes `year - 1`).
* The `franchid` obtained by the left merge with the Teams table is an
  `Option String`: `none` models the pandas `NaN` produced when a batting
  row has no matching Teams row.  Crucially, Python/numpy `NaN` compares
  unequal to everything *including itself*; the comparison `team != last_team`
  of the source is modelled bit-for-bit by `pyNe` below.
* `PersonRow.finalyear` models the derived column
  `pd.to_datetime(people['finalgame'], errors='coerce').dt.year`:
  `none` means no (parseable) final-game date, i.e. an active player.
* `pd.DataFrame.sort_values('yearid')` only guarantees a year-ascending
  order (its default quicksort is not stable, so the order of rows within
  one year is unspecified); the model uses insertion sort by year.
* Python dicts are association lists in insertion order; dict indexing is
  `List.lookup`.
* `rapidfuzz.process.extractOne` scans the choices in order and keeps a
  candidate only on a strictly larger score, so the first maximizer wins.
  The external scorer (`fuzz.WRatio`) is a parameter `scorer` of the model;
  scores are exact rationals on the 0–100 scale.
-/

/-- Row of the People table, with the derived `finalyear` column of `main`
(`none` = missing or unparseable `finalGame`, i.e. the player is active). -/
structure PersonRow where
  playerid : String
  namefirst : String
  namelast : String
  finalyear : Option Int
deriving DecidableEq

/-- Row of the Batting table (the columns the program uses). -/
structure BattingRow where
  playerid : String
  yearid : Int
  teamid : String
deriving DecidableEq

/-- Row of the Teams table (the columns the program uses). -/
structure TeamRow where
  teamid : String
  yearid : Int
  franchid : String
deriving DecidableEq

/-- A tenure block `(start_year, end_year, franchise)` as produced by
`get_player_team_blocks`; the franchise is `none` when the underlying rows
did not resolve against the Teams table. -/
abbrev Block := Int × Int × Option String

/-- The `TEAM_COLORS` dict of the source: franchise code → HEX color,
30 entries in insertion order. -/
def TEAM_COLORS : List (String × String) :=
  [("ARI", "#A71930"), ("ATL", "#CE1141"), ("BAL", "#DF4601"), ("BOS", "#BD3039"),
   ("CHC", "#0E3386"), ("CHW", "#27251F"), ("CIN", "#C6011F"), ("CLE", "#0C2340"),
   ("COL", "#33006F"), ("DET", "#0C2340"), ("HOU", "#EB6E1F"), ("KCR", "#004687"),
   ("LAA", "#BA0021"), ("LAD", "#005A9C"), ("MIA", "#00A3E0"), ("MIL", "#12284B"),
   ("MIN", "#002B5C"), ("NYM", "#002D72"), ("NYY", "#003087"), ("OAK", "#003831"),
   ("PHI", "#E81828"), ("PIT", "#FDB827"), ("SDP", "#2F241D"), ("SEA", "#0C2C56"),
   ("SFG", "#FD5A1E"), ("STL", "#C41E3A"), ("TBR", "#092C5C"), ("TEX", "#003278"),
   ("TOR", "#134A8E"), ("WSN", "#AB0003")]

/-- The `OFFICIAL_TEAM_NAMES` dict of the source: canonical full team name →
franchise code, 30 entries in insertion order. -/
def OFFICIAL_TEAM_NAMES : List (String × String) :=
  [("Arizona Diamondbacks", "ARI"),
   ("Atlanta Braves", "ATL"),
   ("Baltimore Orioles", "BAL"),
   ("Boston Red Sox", "BOS"),
   ("Chicago Cubs", "CHC"),
   ("Chicago White Sox", "CHW"),
   ("Cincinnati Reds", "CIN"),
   ("Cleveland Guardians", "CLE"),
   ("Colorado Rockies", "COL"),
   ("Detroit Tigers", "DET"),
   ("Houston Astros", "HOU"),
   ("Kansas City Royals", "KCR"),
   ("Los Angeles Angels", "ANA"),
   ("Los Angeles Dodgers", "LAD"),
   ("Miami Marlins", "FLA"),
   ("Milwaukee Brewers", "MIL"),
   ("Minnesota Twins", "MIN"),
   ("New York Mets", "NYM"),
   ("New York Yankees", "NYY"),
   ("Oakland Athletics", "OAK"),
   ("Philadelphia Phillies", "PHI"),
   ("Pittsburgh Pirates", "PIT"),
   ("San Diego Padres", "SDP"),
   ("Seattle Mariners", "SEA"),
   ("San Francisco Giants", "SFG"),
   ("St. Louis Cardinals", "STL"),
   ("Tampa Bay Rays", "TBR"),
   ("Texas Rangers", "TEX"),
   ("Toronto Blue Jays", "TOR"),
   ("Washington Nationals", "WSN")]

/-- The `TEAM_NAMES` dict of the source: franchise code → full team name,
built as the inverse `{v: k for k, v in OFFICIAL_TEAM_NAMES.items()}`. -/
def TEAM_NAMES : List (String × String) :=
  OFFICIAL_TEAM_NAMES.map fun p => (p.2, p.1)

/-- Color chosen by the renderer for a block's franchise value:
`TEAM_COLORS.get(team, "#888888")`, where an unresolved (`none`) franchise is
the pandas `NaN`, which is absent from the dict. -/
def colorOf (team : Option String) : String :=
  match team with
  | none => "#888888"
  | some c => (TEAM_COLORS.lookup c).getD "#888888"

/-- Display name chosen by the renderer for a block's franchise value:
`TEAM_NAMES.get(team, "Unknown Team")`. -/
def displayNameOf (team : Option String) : String :=
  match team with
  | none => "Unknown Team"
  | some c => (TEAM_NAMES.lookup c).getD "Unknown Team"

/-- Player lookup of `get_player_team_blocks` (lines 70–76): filter the
People table by exact equality on both name columns and take
`player['playerid'].values[0]`, i.e. the playerid of the *first* matching
row; `none` when no row matches. -/
def lookupPlayer (people : List PersonRow) (first last : String) : Option String :=
  ((people.filter fun p => p.namefirst == first && p.namelast == last).head?).map
    (fun p => p.playerid)

/-- Row selection `batting_df[batting_df['playerid'] == player_id]`. -/
def playerBatting (batting : List BattingRow) (pid : String) : List BattingRow :=
  batting.filter fun b => b.playerid == pid

/-- Left merge of batting rows with `teams_df[['teamid','yearid','franchid']]`
on `(teamid, yearid)` (line 79–83), keeping only the columns the scan reads:
each batting row yields one `(yearid, franchid)` pair per matching Teams row,
or a single `(yearid, none)` pair (pandas `NaN`) when no Teams row matches. -/
def mergeTeams (teams : List TeamRow) (rows : List BattingRow) :
    List (Int × Option String) :=
  rows.flatMap fun b =>
    let ms := teams.filter fun t => t.teamid == b.teamid && t.yearid == b.yearid
    if ms.isEmpty then [(b.yearid, none)] else ms.map fun t => (b.yearid, some t.franchid)

/-- Year-ascending sort modelling `.sort_values('yearid')` (whose default
quicksort leaves the relative order of equal years unspecified; any
year-ascending order is a faithful model). -/
def sortByYear (l : List (Int × Option String)) : List (Int × Option String) :=
  List.insertionSort (fun a b => a.1 ≤ b.1) l

/-- The comparison `team != last_team` of the scan loop. `team` is the
current row's franchise (`none` = `NaN`), `last_team` is the loop variable
(`none` = the initial Python `None`, `some v` = franchise of the open
block).  Python semantics: `NaN != x` is `True` for every `x`, *including*
`x = NaN`, and any franchise differs from the initial `None`; only two equal
strings compare equal. -/
def pyNe (team : Option String) (lastTeam : Option (Option String)) : Bool :=
  match team, lastTeam with
  | some a, some (some b) => a != b
  | _, _ => true

/-- The scan loop of `get_player_team_blocks` (lines 85–98), as a recursion
over the year-sorted rows.  State: `lastTeam` (`none` before the first row),
`startYear` of the open block, `lastYear` (the Python loop variable `year`,
which retains the final row's year after the loop), and the accumulated
`blocks`.  On a change it closes the open block at `year - 1`; after the
scan it closes the open block at the last year seen. -/
def scanGo (lastTeam : Option (Option String)) (startYear lastYear : Int)
    (blocks : List Block) : List (Int × Option String) → List Block
  | [] =>
    match lastTeam with
    | none => blocks
    | some lt => blocks ++ [(startYear, lastYear, lt)]
  | (year, team) :: rest =>
    if pyNe team lastTeam then
      match lastTeam with
      | none => scanGo (some team) year year blocks rest
      | some lt => scanGo (some team) year year (blocks ++ [(startYear, year - 1, lt)]) rest
    else
      scanGo lastTeam startYear year blocks rest

/-- The full scan: initial state `last_team = None` (start/last year dummies
are never read before being assigned, exactly as in the source). -/
def scanBlocks (rows : List (Int × Option String)) : List Block :=
  scanGo none 0 0 [] rows

/-- `get_player_team_blocks(player_first, player_last, people_df, batting_df,
teams_df)` (lines 65–100): resolve the player by name, select the player's
batting rows, left-merge with Teams, sort by year, and run the scan; an
unknown player yields `[]`. -/
def get_player_team_blocks (first last : String) (people : List PersonRow)
    (batting : List BattingRow) (teams : List TeamRow) : List Block :=
  match lookupPlayer people first last with
  | none => []
  | some pid => scanBlocks (sortByYear (mergeTeams teams (playerBatting batting pid)))

/-- Inner loop of `rapidfuzz.process.extractOne`: scan the remaining choices,
replacing the current best only on a strictly larger score (so the first
maximizer in directory order wins). -/
def extractOneGo (scorer : String → String → ℚ) (query : String)
    (best : String × ℚ) : List String → String × ℚ
  | [] => best
  | c :: cs =>
    extractOneGo scorer query
      (if best.2 < scorer query c then (c, scorer query c) else best) cs

/-- `process.extractOne(query, choices, scorer)`: `none` on an empty choice
list, otherwise the first-best `(choice, score)` pair. -/
def extractOne (scorer : String → String → ℚ) (query : String) :
    List String → Option (String × ℚ)
  | [] => none
  | c :: cs => some (extractOneGo scorer query (c, scorer query c) cs)

/-- `get_franchise_code_from_input(user_input)` (lines 102–107),
parameterized by the external fuzzy scorer (`fuzz.WRatio` in the source):
accept the best match iff its score is at least 70, returning
`(OFFICIAL_TEAM_NAMES[match[0]], match[0])`, and `(None, None)` otherwise. -/
def get_franchise_code_from_input (scorer : String → String → ℚ)
    (user_input : String) : Option String × Option String :=
  match extractOne scorer user_input (OFFICIAL_TEAM_NAMES.map fun p => p.1) with
  | some (name, score) =>
    if 70 ≤ score then (OFFICIAL_TEAM_NAMES.lookup name, some name) else (none, none)
  | none => (none, none)

/-- Distinct values of a list in first-occurrence order, modelling pandas
`Series.unique()` (used for the per-player `franchid` values) and the set of
group keys produced by `groupby` (used for the player ids). -/
def uniqueList {α : Type} [DecidableEq α] : List α → List α
  | [] => []
  | x :: xs => x :: (uniqueList xs).filter fun v => v ≠ x

/-- Roster filter inlined in `main` (lines 161–187), under the contract name
`players_exclusive_to` of the specification.  Active players are those with
`finalyear` missing; their batting rows are restricted to each player's
latest season (groupby-max year followed by an inner merge, modelled as the
equivalent filter), left-merged with Teams for `franchid`; a player is kept
iff the distinct `franchid` values of that latest season are exactly the
one-element list `[code]` (`len(teams) == 1 and teams[0] == franchise_code`,
where a pandas `NaN` value — `none` here — never equals a code). -/
def players_exclusive_to (code : String) (people : List PersonRow)
    (batting : List BattingRow) (teams : List TeamRow) : List String :=
  let active := people.filter fun p => p.finalyear.isNone
  let activeBatting := batting.filter fun b =>
    (active.map fun p => p.playerid).contains b.playerid
  let latestBatting := activeBatting.filter fun b =>
    (activeBatting.filter fun c => c.playerid == b.playerid).all
      fun c => c.yearid ≤ b.yearid
  let pids := uniqueList (latestBatting.map fun b => b.playerid)
  pids.filter fun pid =>
    let vals := (mergeTeams teams (latestBatting.filter fun b => b.playerid == pid)).map
      fun r => r.2
    uniqueList vals == [some code]

example :
    get_player_team_blocks "Mookie" "Betts"
      [⟨"bettsmo01", "Mookie", "Betts", none⟩]
      [⟨"bettsmo01", 2018, "TA"⟩, ⟨"bettsmo01", 2019, "TA"⟩, ⟨"bettsmo01", 2020, "TB"⟩]
      [⟨"TA", 2018, "BOS"⟩, ⟨"TA", 2019, "BOS"⟩, ⟨"TB", 2020, "NYY"⟩] =
    [(2018, 2019, some "BOS"), (2020, 2020, some "NYY")] := by decide

example :
    scanBlocks [(2018, none), (2019, none)] =
      [(2018, 2018, none), (2019, 2019, none)] := by decide

example :
    players_exclusive_to "BOS"
      [⟨"p1", "A", "B", none⟩]
      [⟨"p1", 2020, "TA"⟩]
      [⟨"TA", 2020, "BOS"⟩] = ["p1"] := by decide

/-! ## Helper lemmas about the embedded operations -/

lemma pyNe_none_right (t : Option String) : pyNe t none = true := by
  cases t <;> rfl

lemma pyNe_none_left (lt : Option (Option String)) : pyNe none lt = true := by
  cases lt with
  | none => rfl
  | some v => cases v <;> rfl

lemma pyNe_self (f : String) : pyNe (some f) (some (some f)) = false := by
  simp [pyNe]

lemma uniqueList_eq_nil {α : Type} [DecidableEq α] (l : List α) :
    uniqueList l = [] ↔ l = [] := by
  cases l <;> simp [uniqueList]

lemma mem_uniqueList {α : Type} [DecidableEq α] (a : α) (l : List α) :
    a ∈ uniqueList l ↔ a ∈ l := by
  induction l with
  | nil => simp [uniqueList]
  | cons x xs ih =>
    show a ∈ x :: (uniqueList xs).filter (fun v => decide (v ≠ x)) ↔ _
    simp only [List.mem_cons, List.mem_filter, ih, decide_eq_true_eq]
    by_cases hx : a = x
    · simp [hx]
    · simp [hx]

lemma uniqueList_eq_singleton {α : Type} [DecidableEq α] (l : List α) (x : α) :
    uniqueList l = [x] ↔ l ≠ [] ∧ ∀ v ∈ l, v = x := by
  cases l with
  | nil => simp [uniqueList]
  | cons y ys =>
    show y :: (uniqueList ys).filter (fun v => decide (v ≠ y)) = [x] ↔ _
    rw [List.cons_eq_cons, List.filter_eq_nil_iff]
    constructor
    · rintro ⟨rfl, h⟩
      refine ⟨List.cons_ne_nil _ _, ?_⟩
      intro v hv
      rcases List.mem_cons.mp hv with rfl | hv
      · rfl
      · have hv2 := h v ((mem_uniqueList v ys).mpr hv)
        simpa using hv2
    · rintro ⟨-, h⟩
      have hy : y = x := h y (List.mem_cons_self y ys)
      refine ⟨hy, ?_⟩
      intro v hv
      have hvy : v = x := h v (List.mem_cons_of_mem _ ((mem_uniqueList v ys).mp hv))
      simp [hvy, hy]

lemma mem_years_mergeTeams (teams : List TeamRow) (rows : List BattingRow) (y : Int) :
    y ∈ (mergeTeams teams rows).map Prod.fst ↔ ∃ b ∈ rows, b.yearid = y := by
  simp only [mergeTeams, List.mem_map, List.mem_flatMap]
  constructor
  · rintro ⟨pair, ⟨b, hb, hpair⟩, hfst⟩
    refine ⟨b, hb, ?_⟩
    by_cases hms : (teams.filter fun t => t.teamid == b.teamid && t.yearid == b.yearid).isEmpty
    · rw [if_pos hms] at hpair
      simp only [List.mem_singleton] at hpair
      rw [hpair] at hfst
      exact hfst
    · rw [if_neg hms] at hpair
      rcases List.mem_map.mp hpair with ⟨t, -, hteq⟩
      rw [← hteq] at hfst
      exact hfst
  · rintro ⟨b, hb, rfl⟩
    by_cases hms : (teams.filter fun t => t.teamid == b.teamid && t.yearid == b.yearid).isEmpty
    · exact ⟨(b.yearid, none), ⟨b, hb, by rw [if_pos hms]; exact List.mem_singleton.mpr rfl⟩, rfl⟩
    · rcases hts : teams.filter fun t => t.teamid == b.teamid && t.yearid == b.yearid with _ | ⟨t, ts⟩
      · rw [hts] at hms
        simp at hms
      · refine ⟨(b.yearid, some t.franchid), ⟨b, hb, ?_⟩, rfl⟩
        rw [if_neg hms, hts]
        exact List.mem_map.mpr ⟨t, List.mem_cons_self t ts, rfl⟩

lemma mergeTeams_eq_nil (teams : List TeamRow) (rows : List BattingRow) :
    mergeTeams teams rows = [] ↔ rows = [] := by
  constructor
  · intro h
    rcases rows with _ | ⟨b, bs⟩
    · rfl
    · exfalso
      have hy : b.yearid ∈ (mergeTeams teams (b :: bs)).map Prod.fst :=
        (mem_years_mergeTeams teams (b :: bs) b.yearid).mpr ⟨b, List.mem_cons_self b bs, rfl⟩
      rw [h] at hy
      simp at hy
  · rintro rfl
    rfl

/-! ## Claim theorems -/

/-- C2: for batting rows `[(2018, teamA), (2019, teamA), (2020, teamB)]` where
teamA resolves to franchise "BOS" in 2018 and 2019 and teamB resolves to
"NYY" in 2020, `get_player_team_blocks` returns exactly
`[(2018, 2019, "BOS"), (2020, 2020, "NYY")]`: the franchise change at 2020
closes the open block at 2019 and opens a new block at 2020. -/
theorem C2_change_scenario :
    get_player_team_blocks "Alex" "Example"
      [⟨"p1", "Alex", "Example", none⟩]
      [⟨"p1", 2018, "TA"⟩, ⟨"p1", 2019, "TA"⟩, ⟨"p1", 2020, "TB"⟩]
      [⟨"TA", 2018, "BOS"⟩, ⟨"TA", 2019, "BOS"⟩, ⟨"TB", 2020, "NYY"⟩] =
      [(2018, 2019, some "BOS"), (2020, 2020, some "NYY")] := by decide

/-- C6 counterexample: the claim that consecutive years all resolving to the
null franchise form a single run is false.  A player with appearances in 2018
and 2019 and an empty Teams table gets two one-year blocks — pandas `NaN`
compares unequal to itself, so the second null row closes the first block —
not the single block `(2018, 2019, null)` the claim predicts. -/
theorem C6_counterexample :
    get_player_team_blocks "Nate" "Nullset"
      [⟨"p2", "Nate", "Nullset", none⟩]
      [⟨"p2", 2018, "XXX"⟩, ⟨"p2", 2019, "XXX"⟩] [] =
      [(2018, 2018, none), (2019, 2019, none)] ∧
    get_player_team_blocks "Nate" "Nullset"
      [⟨"p2", "Nate", "Nullset", none⟩]
      [⟨"p2", 2018, "XXX"⟩, ⟨"p2", 2019, "XXX"⟩] [] ≠
      [(2018, 2019, (none : Option String))] := by decide

/-- C7 counterexample: the resolver can return the franchise code "ANA" (for
the directory entry "Los Angeles Angels"), but "ANA" has no entry in the
30-color palette `TEAM_COLORS` (which uses "LAA" instead), so a
resolver-produced code does fall back to the neutral gray. -/
theorem C7_counterexample :
    ("Los Angeles Angels", "ANA") ∈ OFFICIAL_TEAM_NAMES ∧
    TEAM_COLORS.lookup "ANA" = none ∧
    colorOf (some "ANA") = "#888888" := by decide

/-- C7 (amended): every franchise code in the directory has an entry in the
code-to-display-name mapping `TEAM_NAMES`; the color palette `TEAM_COLORS`
has 30 entries and covers every directory code except "ANA" (Los Angeles
Angels) and "FLA" (Miami Marlins), for which the palette instead carries the
codes "LAA" and "MIA"; those two resolver-producible codes therefore render
with the fallback gray, though still with their proper display names. -/
theorem C7_amended :
    TEAM_COLORS.length = 30 ∧
    (∀ code ∈ OFFICIAL_TEAM_NAMES.map (fun p => p.2), (TEAM_NAMES.lookup code).isSome) ∧
    (∀ code ∈ OFFICIAL_TEAM_NAMES.map (fun p => p.2),
      code = "ANA" ∨ code = "FLA" ∨ (TEAM_COLORS.lookup code).isSome) ∧
    colorOf (some "ANA") = "#888888" ∧ colorOf (some "FLA") = "#888888" ∧
    displayNameOf (some "ANA") = "Los Angeles Angels" ∧
    displayNameOf (some "FLA") = "Miami Marlins" := by decide

/-- Witness for `C7_amended` at the concrete directory code "BOS". -/
theorem C7_amended_witness : (TEAM_NAMES.lookup "BOS").isSome :=
  C7_amended.2.1 "BOS" (by decide)

/-- C8: the block extractor is a total function and absence of data yields
exactly the empty sequence: an unknown (first, last) identity gives `[]`, and
a known player with no batting rows gives `[]` (the model is a total Lean
function, so no error path exists by construction). -/
theorem C8_total_extractor (first last : String) (people : List PersonRow)
    (batting : List BattingRow) (teams : List TeamRow) :
    (lookupPlayer people first last = none →
      get_player_team_blocks first last people batting teams = []) ∧
    ∀ pid, lookupPlayer people first last = some pid →
      playerBatting batting pid = [] →
      get_player_team_blocks first last people batting teams = [] := by
  constructor
  · intro h
    simp [get_player_team_blocks, h]
  · intro pid h hb
    simp [get_player_team_blocks, h, hb, mergeTeams, sortByYear, scanBlocks, scanGo]

/-- Witness for `C8_total_extractor`: a name absent from the People table and
a listed player with an empty Batting table both yield `[]`. -/
theorem C8_witness :
    get_player_team_blocks "Alice" "Absent" [] [] [] = [] ∧
    get_player_team_blocks "Bob" "Rowless" [⟨"p1", "Bob", "Rowless", none⟩] [] [] = [] :=
  ⟨(C8_total_extractor "Alice" "Absent" [] [] []).1 (by decide),
   (C8_total_extractor "Bob" "Rowless" [⟨"p1", "Bob", "Rowless", none⟩] [] []).2
     "p1" (by decide) (by decide)⟩

/-- C10: the extractor identifies the player by exact equality of
(namefirst, namelast); whenever the first matching People row is `p`, the
playerid used is `p.playerid` and the returned blocks are computed from that
record's batting rows alone — any later record with the same name is
silently ignored. -/
theorem C10_first_name_match (first last : String) (people : List PersonRow)
    (batting : List BattingRow) (teams : List TeamRow) (p : PersonRow)
    (h : (people.filter fun q => q.namefirst == first && q.namelast == last).head? = some p) :
    lookupPlayer people first last = some p.playerid ∧
    get_player_team_blocks first last people batting teams =
      scanBlocks (sortByYear (mergeTeams teams (playerBatting batting p.playerid))) := by
  have hl : lookupPlayer people first last = some p.playerid := by
    rw [lookupPlayer, h]
    rfl
  exact ⟨hl, by simp [get_player_team_blocks, hl]⟩

/-- Witness for `C10_first_name_match`: two People records share the name
"Chris Doubled"; the extractor uses the first record's playerid ("first1")
and returns that record's career (the 2010 Boston year), ignoring the second
record's 2011 New York year. -/
theorem C10_witness :
    (lookupPlayer
        [⟨"first1", "Chris", "Doubled", none⟩, ⟨"second2", "Chris", "Doubled", none⟩]
        "Chris" "Doubled" = some "first1" ∧
      get_player_team_blocks "Chris" "Doubled"
        [⟨"first1", "Chris", "Doubled", none⟩, ⟨"second2", "Chris", "Doubled", none⟩]
        [⟨"first1", 2010, "TA"⟩, ⟨"second2", 2011, "TB"⟩]
        [⟨"TA", 2010, "BOS"⟩, ⟨"TB", 2011, "NYY"⟩] =
        scanBlocks (sortByYear (mergeTeams
          [⟨"TA", 2010, "BOS"⟩, ⟨"TB", 2011, "NYY"⟩]
          (playerBatting [⟨"first1", 2010, "TA"⟩, ⟨"second2", 2011, "TB"⟩] "first1")))) ∧
    get_player_team_blocks "Chris" "Doubled"
      [⟨"first1", "Chris", "Doubled", none⟩, ⟨"second2", "Chris", "Doubled", none⟩]
      [⟨"first1", 2010, "TA"⟩, ⟨"second2", 2011, "TB"⟩]
      [⟨"TA", 2010, "BOS"⟩, ⟨"TB", 2011, "NYY"⟩] = [(2010, 2010, some "BOS")] :=
  ⟨C10_first_name_match "Chris" "Doubled"
      [⟨"first1", "Chris", "Doubled", none⟩, ⟨"second2", "Chris", "Doubled", none⟩]
      [⟨"first1", 2010, "TA"⟩, ⟨"second2", 2011, "TB"⟩]
      [⟨"TA", 2010, "BOS"⟩, ⟨"TB", 2011, "NYY"⟩]
      ⟨"first1", "Chris", "Doubled", none⟩ (by decide),
   by decide⟩

lemma scanGo_start (y : Int) (t : Option String) (rest : List (Int × Option String)) :
    scanBlocks ((y, t) :: rest) = scanGo (some t) y y [] rest := by
  cases t <;> rfl

lemma scanGo_const (f : String) (rows : List (Int × Option String)) :
    ∀ (blocks : List Block) (s y : Int),
    (∀ r ∈ rows, r.2 = some f) →
    scanGo (some (some f)) s y blocks rows =
      blocks ++ [(s, (rows.map Prod.fst).getLastD y, some f)] := by
  induction rows with
  | nil =>
    intro blocks s y h
    rfl
  | cons r rest ih =>
    intro blocks s y h
    obtain ⟨yr, tm⟩ := r
    have htm : tm = some f := h (yr, tm) (List.mem_cons_self _ _)
    subst htm
    have hcond : pyNe (some f) (some (some f)) = false := pyNe_self f
    simp only [scanGo, hcond, Bool.false_eq_true, if_false]
    rw [ih blocks s yr (fun r hr => h r (List.mem_cons_of_mem _ hr))]
    rw [List.map_cons, List.getLastD_cons]

lemma le_getLastD_of_sorted (ys : List Int) :
    ∀ (y : Int), List.Sorted (· ≤ ·) (y :: ys) →
    ∀ v ∈ y :: ys, v ≤ ys.getLastD y := by
  induction ys with
  | nil =>
    intro y h v hv
    rcases List.mem_singleton.mp hv with rfl
    exact le_refl _
  | cons z zs ih =>
    intro y h v hv
    rw [List.getLastD_cons]
    have hsz : List.Sorted (· ≤ ·) (z :: zs) := (List.sorted_cons.mp h).2
    rcases List.mem_cons.mp hv with rfl | hv2
    · have hyz : v ≤ z := (List.sorted_cons.mp h).1 z (List.mem_cons_self _ _)
      exact le_trans hyz (ih z hsz z (List.mem_cons_self _ _))
    · exact ih z hsz v hv2

lemma sortByYear_sorted (l : List (Int × Option String)) :
    List.Sorted (fun a b : Int × Option String => a.1 ≤ b.1) (sortByYear l) := by
  haveI : IsTotal (Int × Option String) (fun a b => a.1 ≤ b.1) :=
    ⟨fun a b => le_total a.1 b.1⟩
  haveI : IsTrans (Int × Option String) (fun a b => a.1 ≤ b.1) :=
    ⟨fun a b c h1 h2 => le_trans h1 h2⟩
  exact List.sorted_insertionSort _ l

lemma sortByYear_perm (l : List (Int × Option String)) : (sortByYear l).Perm l :=
  List.perm_insertionSort _ l

lemma sortByYear_years_sorted (l : List (Int × Option String)) :
    List.Sorted (· ≤ ·) ((sortByYear l).map Prod.fst) :=
  List.Pairwise.map _ (fun _ _ h => h) (sortByYear_sorted l)

/-- C3: a player found in the People table whose batting rows are non-empty
and all resolve (through the Teams merge) to the same franchise code `f`
gets exactly one block `(ymin, ymax, f)`, where `ymin` and `ymax` are the
minimum and maximum years among the player's batting rows; gaps between
appearance years do not split the block. -/
theorem C3_single_franchise (first last : String) (people : List PersonRow)
    (batting : List BattingRow) (teams : List TeamRow) (pid f : String)
    (hpid : lookupPlayer people first last = some pid)
    (hne : playerBatting batting pid ≠ [])
    (hall : ∀ r ∈ mergeTeams teams (playerBatting batting pid), r.2 = some f) :
    ∃ ymin ymax : Int,
      get_player_team_blocks first last people batting teams = [(ymin, ymax, some f)] ∧
      ymin ∈ (playerBatting batting pid).map (fun b => b.yearid) ∧
      ymax ∈ (playerBatting batting pid).map (fun b => b.yearid) ∧
      ∀ y ∈ (playerBatting batting pid).map (fun b => b.yearid), ymin ≤ y ∧ y ≤ ymax := by
  have hperm : (sortByYear (mergeTeams teams (playerBatting batting pid))).Perm
      (mergeTeams teams (playerBatting batting pid)) := sortByYear_perm _
  have hall2 : ∀ r ∈ sortByYear (mergeTeams teams (playerBatting batting pid)),
      r.2 = some f := fun r hr => hall r (hperm.mem_iff.mp hr)
  have hmne : mergeTeams teams (playerBatting batting pid) ≠ [] :=
    fun h => hne ((mergeTeams_eq_nil teams _).mp h)
  have hsne : sortByYear (mergeTeams teams (playerBatting batting pid)) ≠ [] := by
    intro h
    apply hmne
    have hlen := hperm.length_eq
    rw [h] at hlen
    exact List.length_eq_zero.mp hlen.symm
  obtain ⟨r1, rest, hcons⟩ := List.exists_cons_of_ne_nil hsne
  obtain ⟨y1, t1⟩ := r1
  have ht1 : t1 = some f := hall2 (y1, t1) (by rw [hcons]; exact List.mem_cons_self _ _)
  subst ht1
  have hblocks : get_player_team_blocks first last people batting teams =
      scanBlocks (sortByYear (mergeTeams teams (playerBatting batting pid))) := by
    simp [get_player_team_blocks, hpid]
  have hscan : scanBlocks (sortByYear (mergeTeams teams (playerBatting batting pid))) =
      [(y1, (rest.map Prod.fst).getLastD y1, some f)] := by
    rw [hcons, scanGo_start]
    rw [scanGo_const f rest [] y1 y1
      (fun r hr => hall2 r (by rw [hcons]; exact List.mem_cons_of_mem _ hr))]
    rfl
  have hys : (sortByYear (mergeTeams teams (playerBatting batting pid))).map Prod.fst =
      y1 :: rest.map Prod.fst := by
    rw [hcons]
    rfl
  have hsorted : List.Sorted (· ≤ ·) (y1 :: rest.map Prod.fst) := by
    rw [← hys]
    exact sortByYear_years_sorted _
  have hmax_ge : ∀ v ∈ y1 :: rest.map Prod.fst, v ≤ (rest.map Prod.fst).getLastD y1 :=
    le_getLastD_of_sorted _ y1 hsorted
  have hmin_le : ∀ v ∈ y1 :: rest.map Prod.fst, y1 ≤ v := by
    intro v hv
    rcases List.mem_cons.mp hv with rfl | hv2
    · exact le_refl _
    · exact (List.sorted_cons.mp hsorted).1 v hv2
  have hyears : ∀ v : Int, v ∈ y1 :: rest.map Prod.fst ↔
      v ∈ (playerBatting batting pid).map (fun b => b.yearid) := by
    intro v
    rw [← hys, (hperm.map Prod.fst).mem_iff, mem_years_mergeTeams]
    simp only [List.mem_map]
  refine ⟨y1, (rest.map Prod.fst).getLastD y1, ?_, ?_, ?_, ?_⟩
  · rw [hblocks, hscan]
  · exact (hyears y1).mp (List.mem_cons_self _ _)
  · exact (hyears _).mp (List.getLastD_mem_cons _ _)
  · intro y hy
    have hy2 := (hyears y).mpr hy
    exact ⟨hmin_le y hy2, hmax_ge y hy2⟩

/-- Witness for `C3_single_franchise`: a player with rows in 2015 and 2018,
both resolving to "BOS", yields the single block spanning the gap. -/
theorem C3_witness :
    ∃ ymin ymax : Int,
      get_player_team_blocks "Sam" "Steady"
        [⟨"p3", "Sam", "Steady", none⟩]
        [⟨"p3", 2015, "TA"⟩, ⟨"p3", 2018, "TA"⟩]
        [⟨"TA", 2015, "BOS"⟩, ⟨"TA", 2018, "BOS"⟩] = [(ymin, ymax, some "BOS")] ∧
      ymin ∈ (playerBatting [⟨"p3", 2015, "TA"⟩, ⟨"p3", 2018, "TA"⟩] "p3").map
        (fun b => b.yearid) ∧
      ymax ∈ (playerBatting [⟨"p3", 2015, "TA"⟩, ⟨"p3", 2018, "TA"⟩] "p3").map
        (fun b => b.yearid) ∧
      ∀ y ∈ (playerBatting [⟨"p3", 2015, "TA"⟩, ⟨"p3", 2018, "TA"⟩] "p3").map
        (fun b => b.yearid), ymin ≤ y ∧ y ≤ ymax :=
  C3_single_franchise "Sam" "Steady"
    [⟨"p3", "Sam", "Steady", none⟩]
    [⟨"p3", 2015, "TA"⟩, ⟨"p3", 2018, "TA"⟩]
    [⟨"TA", 2015, "BOS"⟩, ⟨"TA", 2018, "BOS"⟩]
    "p3" "BOS" (by decide) (by decide) (by decide)

lemma scanGo_length_ge (rows : List (Int × Option String)) :
    ∀ (lt : Option (Option String)) (s y : Int) (blocks : List Block),
    blocks.length + (if lt.isSome then 1 else 0) + (rows.countP fun r => r.2.isNone)
      ≤ (scanGo lt s y blocks rows).length := by
  induction rows with
  | nil =>
    intro lt s y blocks
    cases lt with
    | none => simp [scanGo]
    | some v => simp [scanGo]
  | cons r rest ih =>
    intro lt s y blocks
    obtain ⟨yr, tm⟩ := r
    rw [List.countP_cons]
    rcases tm with _ | a
    · rcases lt with _ | lt'
      · rw [show scanGo none s y blocks ((yr, none) :: rest) =
            scanGo (some none) yr yr blocks rest from rfl]
        have h2 := ih (some none) yr yr blocks
        simp only [Option.isSome_none, Option.isSome_some, Option.isNone_none,
          Bool.false_eq_true, if_false, if_true] at h2 ⊢
        omega
      · rw [show scanGo (some lt') s y blocks ((yr, none) :: rest) =
            scanGo (some none) yr yr (blocks ++ [(s, yr - 1, lt')]) rest from rfl]
        have h2 := ih (some none) yr yr (blocks ++ [(s, yr - 1, lt')])
        simp only [Option.isSome_none, Option.isSome_some, Option.isNone_none,
          Bool.false_eq_true, if_false, if_true, List.length_append,
          List.length_singleton] at h2 ⊢
        omega
    · rcases lt with _ | lt'
      · rw [show scanGo none s y blocks ((yr, some a) :: rest) =
            scanGo (some (some a)) yr yr blocks rest from rfl]
        have h2 := ih (some (some a)) yr yr blocks
        simp only [Option.isSome_none, Option.isSome_some, Option.isNone_some,
          Bool.false_eq_true, if_false, if_true] at h2 ⊢
        omega
      · rcases lt' with _ | b
        · rw [show scanGo (some none) s y blocks ((yr, some a) :: rest) =
              scanGo (some (some a)) yr yr (blocks ++ [(s, yr - 1, none)]) rest from rfl]
          have h2 := ih (some (some a)) yr yr (blocks ++ [(s, yr - 1, none)])
          simp only [Option.isSome_none, Option.isSome_some, Option.isNone_some,
            Bool.false_eq_true, if_false, if_true, List.length_append,
            List.length_singleton] at h2 ⊢
          omega
        · cases hab : a == b
          · have hcond : pyNe (some a) (some (some b)) = true := by
              show (a != b) = true
              simp [bne, hab]
            simp only [scanGo, hcond, if_true]
            have h2 := ih (some (some a)) yr yr (blocks ++ [(s, yr - 1, some b)])
            simp only [Option.isSome_none, Option.isSome_some, Option.isNone_some,
              Bool.false_eq_true, if_false, if_true, List.length_append,
              List.length_singleton] at h2 ⊢
            omega
          · have hcond : pyNe (some a) (some (some b)) = false := by
              show (a != b) = false
              simp [bne, hab]
            simp only [scanGo, hcond, Bool.false_eq_true, if_false]
            have h2 := ih (some (some b)) s yr blocks
            simp only [Option.isSome_none, Option.isSome_some, Option.isNone_some,
              Bool.false_eq_true, if_false, if_true] at h2 ⊢
            omega

/-- C6 (amended): a batting row with no matching TeamSeason row is never
dropped — it contributes a `(year, null)` entry to the merged sequence and
participates in run-detection (first conjunct).  Any transition in which the
open block's franchise or the incoming row's franchise is null takes the
change branch — `NaN != x` is True for every `x` — so a change from a real
franchise to null, or from null to a real franchise, closes the open block
at the year before the new row and opens a new block at the new row's year
(second conjunct, a step equation on the scan; the third and fourth
conjuncts run a real→null and a null→real career end to end).  And because
pandas `NaN` also compares unequal to *itself*, consecutive null years do
NOT coalesce into a single run: the scan emits at least one block per null
row (last conjunct). -/
theorem C6_null_rows :
    (∀ (teams : List TeamRow) (rows : List BattingRow) (b : BattingRow),
      b ∈ rows →
      (teams.filter fun t => t.teamid == b.teamid && t.yearid == b.yearid) = [] →
      (b.yearid, (none : Option String)) ∈ mergeTeams teams rows) ∧
    (∀ lt tm : Option String, lt = none ∨ tm = none →
      ∀ (s y yr : Int) (blocks : List Block) (rest : List (Int × Option String)),
        scanGo (some lt) s y blocks ((yr, tm) :: rest) =
          scanGo (some tm) yr yr (blocks ++ [(s, yr - 1, lt)]) rest) ∧
    scanBlocks [(2018, some "BOS"), (2019, none)] =
      [(2018, 2018, some "BOS"), (2019, 2019, none)] ∧
    scanBlocks [(2018, none), (2019, some "BOS")] =
      [(2018, 2018, none), (2019, 2019, some "BOS")] ∧
    ∀ rows : List (Int × Option String),
      (rows.countP fun r => r.2.isNone) ≤ (scanBlocks rows).length := by
  refine ⟨?_, ?_, by decide, by decide, ?_⟩
  · intro teams rows b hb hfil
    simp only [mergeTeams, List.mem_flatMap]
    refine ⟨b, hb, ?_⟩
    simp [hfil]
  · rintro lt tm (rfl | rfl) s y yr blocks rest
    · cases tm <;> rfl
    · cases lt <;> rfl
  · intro rows
    have h := scanGo_length_ge rows none 0 0 []
    simpa using h

/-- Witness for `C6_null_rows`: a 2018 appearance with an empty Teams table
yields the `(2018, null)` entry; the step equation fires both for a
real-to-null transition (open "BOS" block, incoming null row) and for a
null-to-real transition (open null block, incoming "BOS" row), closing the
open block at 2018 and opening a new one at 2019; and the two-null-row
sequence from `C6_counterexample` indeed produces at least two blocks. -/
theorem C6_witness :
    ((2018 : Int), (none : Option String)) ∈ mergeTeams [] [⟨"p9", 2018, "TX"⟩] ∧
    scanGo (some (some "BOS")) 2018 2018 [] [((2019 : Int), (none : Option String))] =
      scanGo (some none) 2019 2019 [((2018 : Int), (2018 : Int), some "BOS")] [] ∧
    scanGo (some (none : Option String)) 2018 2018 [] [((2019 : Int), some "BOS")] =
      scanGo (some (some "BOS")) 2019 2019 [((2018 : Int), (2018 : Int), none)] [] ∧
    (([(2018, none), (2019, none)] : List (Int × Option String)).countP
      fun r => r.2.isNone) ≤ (scanBlocks [(2018, none), (2019, none)]).length :=
  ⟨C6_null_rows.1 [] [⟨"p9", 2018, "TX"⟩] ⟨"p9", 2018, "TX"⟩ (by decide) rfl,
   C6_null_rows.2.1 (some "BOS") none (Or.inr rfl) 2018 2018 2019 [] [],
   C6_null_rows.2.1 none (some "BOS") (Or.inl rfl) 2018 2018 2019 [] [],
   C6_null_rows.2.2.2.2 [(2018, none), (2019, none)]⟩

lemma extractOneGo_spec (scorer : String → String → ℚ) (q : String) :
    ∀ (cs : List String) (best : String × ℚ),
    (extractOneGo scorer q best cs = best ∨
      ((extractOneGo scorer q best cs).1 ∈ cs ∧
        (extractOneGo scorer q best cs).2 = scorer q (extractOneGo scorer q best cs).1)) ∧
    best.2 ≤ (extractOneGo scorer q best cs).2 ∧
    ∀ m ∈ cs, scorer q m ≤ (extractOneGo scorer q best cs).2 := by
  intro cs
  induction cs with
  | nil =>
    intro best
    exact ⟨Or.inl rfl, le_refl _, by simp⟩
  | cons c cs ih =>
    intro best
    have hstep : extractOneGo scorer q best (c :: cs) =
        extractOneGo scorer q (if best.2 < scorer q c then (c, scorer q c) else best) cs := rfl
    rw [hstep]
    by_cases h : best.2 < scorer q c
    · rw [if_pos h]
      obtain ⟨hmem, hmono, hall⟩ := ih (c, scorer q c)
      refine ⟨?_, le_trans (le_of_lt h) hmono, ?_⟩
      · rcases hmem with heq | ⟨h1, h2⟩
        · right
          rw [heq]
          exact ⟨List.mem_cons_self _ _, rfl⟩
        · exact Or.inr ⟨List.mem_cons_of_mem _ h1, h2⟩
      · intro m hm
        rcases List.mem_cons.mp hm with rfl | hm2
        · exact hmono
        · exact hall m hm2
    · rw [if_neg h]
      obtain ⟨hmem, hmono, hall⟩ := ih best
      refine ⟨?_, hmono, ?_⟩
      · rcases hmem with heq | ⟨h1, h2⟩
        · exact Or.inl heq
        · exact Or.inr ⟨List.mem_cons_of_mem _ h1, h2⟩
      · intro m hm
        rcases List.mem_cons.mp hm with rfl | hm2
        · exact le_trans (le_of_not_lt h) hmono
        · exact hall m hm2

lemma extractOneGo_keep (scorer : String → String → ℚ) (q : String) :
    ∀ (cs : List String) (best : String × ℚ),
    (∀ m ∈ cs, scorer q m ≤ best.2) →
    extractOneGo scorer q best cs = best := by
  intro cs
  induction cs with
  | nil =>
    intro best _
    rfl
  | cons c cs ih =>
    intro best h
    have hc : ¬ best.2 < scorer q c := not_lt.mpr (h c (List.mem_cons_self _ _))
    have hstep : extractOneGo scorer q best (c :: cs) =
        extractOneGo scorer q (if best.2 < scorer q c then (c, scorer q c) else best) cs := rfl
    rw [hstep, if_neg hc]
    exact ih best (fun m hm => h m (List.mem_cons_of_mem _ hm))

lemma extractOneGo_unique (scorer : String → String → ℚ) (q : String) :
    ∀ (cs : List String) (best : String × ℚ) (n : String),
    cs.Nodup → n ∈ cs →
    (∀ m ∈ cs, m ≠ n → scorer q m < scorer q n) →
    best.2 < scorer q n →
    extractOneGo scorer q best cs = (n, scorer q n) := by
  intro cs
  induction cs with
  | nil =>
    intro best n _ hn
    cases hn
  | cons c cs ih =>
    intro best n hnd hn hlt hbest
    have hstep : extractOneGo scorer q best (c :: cs) =
        extractOneGo scorer q (if best.2 < scorer q c then (c, scorer q c) else best) cs := rfl
    rw [hstep]
    rcases List.mem_cons.mp hn with rfl | hn2
    · rw [if_pos hbest]
      apply extractOneGo_keep
      intro m hm
      have hmn : m ≠ n := fun he => (List.nodup_cons.mp hnd).1 (he ▸ hm)
      exact le_of_lt (hlt m (List.mem_cons_of_mem _ hm) hmn)
    · have hcn : c ≠ n := fun he => (List.nodup_cons.mp hnd).1 (he ▸ hn2)
      have hclt : scorer q c < scorer q n := hlt c (List.mem_cons_self _ _) hcn
      by_cases h : best.2 < scorer q c
      · rw [if_pos h]
        exact ih (c, scorer q c) n (List.nodup_cons.mp hnd).2 hn2
          (fun m hm hmn => hlt m (List.mem_cons_of_mem _ hm) hmn) hclt
      · rw [if_neg h]
        exact ih best n (List.nodup_cons.mp hnd).2 hn2
          (fun m hm hmn => hlt m (List.mem_cons_of_mem _ hm) hmn) hbest

/-- C5: for every query and every scorer, the resolver returns NotFound
(`(None, None)`) iff the best fuzzy score over the 30 canonical directory
names is below 70; and whenever some directory name scores at least 70 and
strictly above every other name, the resolver returns exactly that entry's
franchise code together with that canonical name. -/
theorem C5_resolver_threshold (scorer : String → String → ℚ) (q : String) :
    (get_franchise_code_from_input scorer q = (none, none) ↔
      ∀ name ∈ OFFICIAL_TEAM_NAMES.map (fun p => p.1), scorer q name < 70) ∧
    ∀ n ∈ OFFICIAL_TEAM_NAMES.map (fun p => p.1),
      70 ≤ scorer q n →
      (∀ m ∈ OFFICIAL_TEAM_NAMES.map (fun p => p.1), m ≠ n → scorer q m < scorer q n) →
      get_franchise_code_from_input scorer q =
        (OFFICIAL_TEAM_NAMES.lookup n, some n) := by
  rcases hnames : OFFICIAL_TEAM_NAMES.map (fun p => p.1) with _ | ⟨c, cs⟩
  · exact absurd hnames (by decide)
  · obtain ⟨hmem, hmono, hall⟩ := extractOneGo_spec scorer q cs (c, scorer q c)
    have hr1 : (extractOneGo scorer q (c, scorer q c) cs).1 ∈ c :: cs := by
      rcases hmem with heq | ⟨h1, _⟩
      · rw [heq]
        exact List.mem_cons_self _ _
      · exact List.mem_cons_of_mem _ h1
    have hr2 : (extractOneGo scorer q (c, scorer q c) cs).2 =
        scorer q (extractOneGo scorer q (c, scorer q c) cs).1 := by
      rcases hmem with heq | ⟨_, h2⟩
      · rw [heq]
      · exact h2
    have hrmax : ∀ m ∈ c :: cs, scorer q m ≤ (extractOneGo scorer q (c, scorer q c) cs).2 := by
      intro m hm
      rcases List.mem_cons.mp hm with rfl | hm2
      · exact hmono
      · exact hall m hm2
    have hget : get_franchise_code_from_input scorer q =
        if 70 ≤ (extractOneGo scorer q (c, scorer q c) cs).2
        then (OFFICIAL_TEAM_NAMES.lookup (extractOneGo scorer q (c, scorer q c) cs).1,
              some (extractOneGo scorer q (c, scorer q c) cs).1)
        else (none, none) := by
      unfold get_franchise_code_from_input
      rw [hnames]
      rfl
    constructor
    · constructor
      · intro h name hmemname
        by_contra hcon
        have h70 : (70 : ℚ) ≤ (extractOneGo scorer q (c, scorer q c) cs).2 :=
          le_trans (le_of_not_lt hcon) (hrmax name (hnames ▸ hmemname))
        rw [hget, if_pos h70] at h
        simp at h
      · intro hall70
        have hlt : (extractOneGo scorer q (c, scorer q c) cs).2 < 70 := by
          rw [hr2]
          exact hall70 _ (hnames.symm ▸ hr1)
        rw [hget, if_neg (not_le.mpr hlt)]
    · intro n hmemn h70 huniq
      have hnodup : (c :: cs).Nodup := by
        rw [← hnames]
        decide
      have hn2 : n ∈ c :: cs := hnames ▸ hmemn
      have huniq2 : ∀ m ∈ c :: cs, m ≠ n → scorer q m < scorer q n := by
        intro m hm hmn
        exact huniq m (hnames.symm ▸ hm) hmn
      have hres : extractOneGo scorer q (c, scorer q c) cs = (n, scorer q n) := by
        rcases List.mem_cons.mp hn2 with rfl | hn3
        · apply extractOneGo_keep
          intro m hm
          have hmn : m ≠ n := fun he => (List.nodup_cons.mp hnodup).1 (he ▸ hm)
          exact le_of_lt (huniq2 m (List.mem_cons_of_mem _ hm) hmn)
        · have hcn : c ≠ n := fun he => (List.nodup_cons.mp hnodup).1 (he ▸ hn3)
          exact extractOneGo_unique scorer q cs (c, scorer q c) n
            (List.nodup_cons.mp hnodup).2 hn3
            (fun m hm hmn => huniq2 m (List.mem_cons_of_mem _ hm) hmn)
            (huniq2 c (List.mem_cons_self _ _) hcn)
      rw [hget, hres]
      have hc70 : (70 : ℚ) ≤ (n, scorer q n).2 := h70
      rw [if_pos hc70]

/-- Witness for `C5_resolver_threshold`: under a concrete scorer that gives
"Boston Red Sox" the unique best score 80 (all others 10), the query
resolves to `("BOS", "Boston Red Sox")`. -/
theorem C5_witness :
    get_franchise_code_from_input
      (fun _ name => if name == "Boston Red Sox" then 80 else 10) "red sox" =
      (some "BOS", some "Boston Red Sox") := by
  have h := (C5_resolver_threshold
      (fun _ name => if name == "Boston Red Sox" then 80 else 10) "red sox").2
      "Boston Red Sox" (by decide) (by decide) (by decide)
  rw [h]
  decide

/-- Relation holding between consecutive blocks emitted by the scan: the
earlier block is closed exactly at the year before the later block starts,
and start years do not decrease. -/
def relB (a b : Block) : Prop := a.2.1 = b.1 - 1 ∧ a.1 ≤ b.1

lemma scanGo_invariant (rows : List (Int × Option String)) :
    ∀ (t : Option String) (blocks : List Block) (s y : Int),
    s ≤ y →
    List.Sorted (· ≤ ·) (y :: rows.map Prod.fst) →
    List.Chain' relB blocks →
    (∀ b ∈ blocks.getLast?, b.2.1 = s - 1 ∧ b.1 ≤ s) →
    ∃ tail, scanGo (some t) s y blocks rows = blocks ++ tail ∧
      List.Chain' relB (blocks ++ tail) ∧
      ∀ v : Int, ((s ≤ v ∧ v ≤ y) ∨ v ∈ rows.map Prod.fst) →
        ∃ b ∈ blocks ++ tail, b.1 ≤ v ∧ v ≤ b.2.1 := by
  induction rows with
  | nil =>
    intro t blocks s y hsy _ hchain hlast
    refine ⟨[(s, y, t)], rfl, ?_, ?_⟩
    · rw [List.chain'_append]
      refine ⟨hchain, List.chain'_singleton _, ?_⟩
      intro b hb z hz
      have hz2 : (s, y, t) = z := by simpa using hz
      subst hz2
      exact hlast b hb
    · intro v hv
      rcases hv with ⟨h1, h2⟩ | hv2
      · exact ⟨(s, y, t), List.mem_append_right _ (List.mem_singleton.mpr rfl), h1, h2⟩
      · simp at hv2
  | cons r rest ih =>
    intro t blocks s y hsy hsorted hchain hlast
    obtain ⟨yr, tm⟩ := r
    simp only [List.map_cons] at hsorted
    have hyyr : y ≤ yr :=
      (List.sorted_cons.mp hsorted).1 yr (List.mem_cons_self _ _)
    have hsorted2 : List.Sorted (· ≤ ·) (yr :: rest.map Prod.fst) :=
      (List.sorted_cons.mp hsorted).2
    cases hch : pyNe tm (some t) with
    | true =>
      have hstep : scanGo (some t) s y blocks ((yr, tm) :: rest) =
          scanGo (some tm) yr yr (blocks ++ [(s, yr - 1, t)]) rest := by
        simp only [scanGo, hch, if_true]
      have hchain2 : List.Chain' relB (blocks ++ [(s, yr - 1, t)]) := by
        rw [List.chain'_append]
        refine ⟨hchain, List.chain'_singleton _, ?_⟩
        intro b hb z hz
        have hz2 : (s, yr - 1, t) = z := by simpa using hz
        subst hz2
        exact hlast b hb
      have hlast2 : ∀ b ∈ (blocks ++ [(s, yr - 1, t)]).getLast?,
          b.2.1 = yr - 1 ∧ b.1 ≤ yr := by
        intro b hb
        rw [List.getLast?_concat] at hb
        have hb2 : (s, yr - 1, t) = b := by simpa using hb
        subst hb2
        exact ⟨rfl, le_trans hsy hyyr⟩
      obtain ⟨tail2, heq2, hchain3, hcov2⟩ :=
        ih tm (blocks ++ [(s, yr - 1, t)]) yr yr (le_refl _) hsorted2 hchain2 hlast2
      refine ⟨(s, yr - 1, t) :: tail2, ?_, ?_, ?_⟩
      · rw [hstep, heq2, List.append_assoc]
        rfl
      · have : blocks ++ (s, yr - 1, t) :: tail2 =
            (blocks ++ [(s, yr - 1, t)]) ++ tail2 := by
          rw [List.append_assoc]
          rfl
        rw [this]
        exact hchain3
      · intro v hv
        have hmemconv : ∀ b : Block, b ∈ (blocks ++ [(s, yr - 1, t)]) ++ tail2 →
            b ∈ blocks ++ (s, yr - 1, t) :: tail2 := by
          intro b hb
          rw [List.append_assoc] at hb
          exact hb
        rcases hv with ⟨h1, h2⟩ | hv2
        · by_cases hvy : v ≤ yr - 1
          · exact ⟨(s, yr - 1, t),
              List.mem_append_right _ (List.mem_cons_self _ _), h1, hvy⟩
          · have hveq : v = yr := by omega
            obtain ⟨b, hb, hbv⟩ := hcov2 v (Or.inl (by omega))
            exact ⟨b, hmemconv b hb, hbv⟩
        · simp only [List.map_cons, List.mem_cons] at hv2
          rcases hv2 with rfl | hv3
          · obtain ⟨b, hb, hbv⟩ := hcov2 v (Or.inl ⟨le_refl _, le_refl _⟩)
            exact ⟨b, hmemconv b hb, hbv⟩
          · obtain ⟨b, hb, hbv⟩ := hcov2 v (Or.inr hv3)
            exact ⟨b, hmemconv b hb, hbv⟩
    | false =>
      have hstep : scanGo (some t) s y blocks ((yr, tm) :: rest) =
          scanGo (some t) s yr blocks rest := by
        simp only [scanGo, hch, Bool.false_eq_true, if_false]
      obtain ⟨tail2, heq2, hchain3, hcov2⟩ :=
        ih t blocks s yr (le_trans hsy hyyr) hsorted2 hchain hlast
      refine ⟨tail2, by rw [hstep, heq2], hchain3, ?_⟩
      intro v hv
      rcases hv with ⟨h1, h2⟩ | hv2
      · exact hcov2 v (Or.inl ⟨h1, le_trans h2 hyyr⟩)
      · simp only [List.map_cons, List.mem_cons] at hv2
        rcases hv2 with rfl | hv3
        · exact hcov2 v (Or.inl ⟨le_trans hsy hyyr, le_refl _⟩)
        · exact hcov2 v (Or.inr hv3)

lemma scanBlocks_props (rows : List (Int × Option String))
    (hs : List.Sorted (· ≤ ·) (rows.map Prod.fst)) :
    List.Chain' relB (scanBlocks rows) ∧
    ∀ v ∈ rows.map Prod.fst, ∃ b ∈ scanBlocks rows, b.1 ≤ v ∧ v ≤ b.2.1 := by
  cases rows with
  | nil => exact ⟨List.chain'_nil, by simp⟩
  | cons r rest =>
    obtain ⟨y1, t1⟩ := r
    rw [scanGo_start]
    simp only [List.map_cons] at hs ⊢
    obtain ⟨tail, heq, hchain, hcov⟩ := scanGo_invariant rest t1 [] y1 y1 (le_refl _) hs
      List.chain'_nil (by intro b hb; simp at hb)
    rw [heq]
    simp only [List.nil_append]
    constructor
    · simpa using hchain
    · intro v hv
      rcases List.mem_cons.mp hv with rfl | hv2
      · simpa using hcov v (Or.inl ⟨le_refl _, le_refl _⟩)
      · simpa using hcov v (Or.inr hv2)

/-- C1 (amended): for every input, the blocks returned by
`get_player_team_blocks` are non-overlapping with non-decreasing (ascending)
start years, and every year carrying a batting row of the resolved player
lies inside some block.  The original claim's remaining conjunct — that no
block contains a year with no row — is false (see `C1_counterexample`):
a block is closed only at the year before the next franchise change (or at
the final year), so it absorbs intervening gap years with no appearance. -/
theorem C1_blocks_invariant (first last : String) (people : List PersonRow)
    (batting : List BattingRow) (teams : List TeamRow) :
    List.Pairwise (fun a b : Block => a.2.1 < b.1 ∧ a.1 ≤ b.1)
      (get_player_team_blocks first last people batting teams) ∧
    ∀ pid, lookupPlayer people first last = some pid →
      ∀ b ∈ playerBatting batting pid,
        ∃ blk ∈ get_player_team_blocks first last people batting teams,
          blk.1 ≤ b.yearid ∧ b.yearid ≤ blk.2.1 := by
  cases hpid : lookupPlayer people first last with
  | none =>
    constructor
    · simp [get_player_team_blocks, hpid]
    · intro pid h
      simp at h
  | some pid =>
    have hblocks : get_player_team_blocks first last people batting teams =
        scanBlocks (sortByYear (mergeTeams teams (playerBatting batting pid))) := by
      simp [get_player_team_blocks, hpid]
    obtain ⟨hchain, hcov⟩ := scanBlocks_props _
      (sortByYear_years_sorted (mergeTeams teams (playerBatting batting pid)))
    constructor
    · rw [hblocks]
      have hchainR : List.Chain' (fun a b : Block => a.2.1 < b.1 ∧ a.1 ≤ b.1)
          (scanBlocks (sortByYear (mergeTeams teams (playerBatting batting pid)))) :=
        hchain.imp (fun a b hab => ⟨by have h1 := hab.1; omega, hab.2⟩)
      haveI : IsTrans Block (fun a b : Block => a.2.1 < b.1 ∧ a.1 ≤ b.1) :=
        ⟨fun a b c h1 h2 => ⟨lt_of_lt_of_le h1.1 h2.2, le_trans h1.2 h2.2⟩⟩
      exact List.chain'_iff_pairwise.mp hchainR
    · intro pid2 hpid2 b hb
      injection hpid2 with hpe
      subst hpe
      rw [hblocks]
      apply hcov
      rw [((sortByYear_perm (mergeTeams teams (playerBatting batting pid))).map
        Prod.fst).mem_iff, mem_years_mergeTeams]
      exact ⟨b, hb, rfl⟩

/-- C1 counterexample: the conjunct "no block contains a year with no row
for that player" fails.  A player with rows only in 2018 and 2020, both
resolving to "BOS", gets the single block `(2018, 2020, "BOS")`, whose year
range contains 2019 even though the player has no 2019 row. -/
theorem C1_counterexample :
    get_player_team_blocks "Gary" "Gapped"
      [⟨"p4", "Gary", "Gapped", none⟩]
      [⟨"p4", 2018, "TA"⟩, ⟨"p4", 2020, "TA"⟩]
      [⟨"TA", 2018, "BOS"⟩, ⟨"TA", 2020, "BOS"⟩] = [(2018, 2020, some "BOS")] ∧
    ((2018 : Int) ≤ 2019 ∧ (2019 : Int) ≤ 2020) ∧
    ∀ b ∈ ([⟨"p4", 2018, "TA"⟩, ⟨"p4", 2020, "TA"⟩] : List BattingRow),
      b.yearid ≠ 2019 := by decide

/-- Witness for `C1_blocks_invariant`: the 2018 appearance of the gap player
is covered by a returned block. -/
theorem C1_witness :
    ∃ blk ∈ get_player_team_blocks "Gary" "Gapped"
      [⟨"p4", "Gary", "Gapped", none⟩]
      [⟨"p4", 2018, "TA"⟩, ⟨"p4", 2020, "TA"⟩]
      [⟨"TA", 2018, "BOS"⟩, ⟨"TA", 2020, "BOS"⟩],
      blk.1 ≤ (2018 : Int) ∧ (2018 : Int) ≤ blk.2.1 :=
  (C1_blocks_invariant "Gary" "Gapped"
      [⟨"p4", "Gary", "Gapped", none⟩]
      [⟨"p4", 2018, "TA"⟩, ⟨"p4", 2020, "TA"⟩]
      [⟨"TA", 2018, "BOS"⟩, ⟨"TA", 2020, "BOS"⟩]).2
    "p4" (by decide) ⟨"p4", 2018, "TA"⟩ (by decide)


lemma filter_ne_nil_iff {α : Type} (l : List α) (p : α → Bool) :
    l.filter p ≠ [] ↔ ∃ a ∈ l, p a = true := by
  rw [Ne, List.filter_eq_nil_iff]
  push_neg
  simp

/-- C4: an active player (no recorded final-game date) is selected by the
roster filter for a target code iff the distinct franchise values resolved
for that player's most recent season are exactly the one-element set
holding the target code.  In particular a player whose latest season has two
distinct resolved franchises is excluded for every target code, as is a
player whose latest season resolves to a null franchise. -/
theorem C4_exclusive_latest_season (code : String) (people : List PersonRow)
    (batting : List BattingRow) (teams : List TeamRow) (p : PersonRow)
    (hp : p ∈ people) (hactive : p.finalyear = none) :
    p.playerid ∈ players_exclusive_to code people batting teams ↔
      ((playerBatting batting p.playerid).filter fun b =>
          (playerBatting batting p.playerid).all fun c => c.yearid ≤ b.yearid) ≠ [] ∧
      ∀ v ∈ (mergeTeams teams
          ((playerBatting batting p.playerid).filter fun b =>
            (playerBatting batting p.playerid).all fun c => c.yearid ≤ b.yearid)).map
          (fun r => r.2), v = some code := by
  have hcont : ∀ b : BattingRow, b.playerid = p.playerid →
      (((people.filter fun q => q.finalyear.isNone).map fun q => q.playerid).contains
        b.playerid) = true := by
    intro b hb
    rw [hb]
    exact List.elem_iff.mpr
      (List.mem_map.mpr ⟨p, List.mem_filter.mpr ⟨hp, by rw [hactive]; rfl⟩, rfl⟩)
  have hfact2 : ((batting.filter fun b =>
        ((people.filter fun q => q.finalyear.isNone).map fun q => q.playerid).contains
          b.playerid).filter fun b =>
        ((batting.filter fun b2 =>
          ((people.filter fun q => q.finalyear.isNone).map fun q => q.playerid).contains
            b2.playerid).filter fun c => c.playerid == b.playerid).all fun c =>
          decide (c.yearid ≤ b.yearid)).filter (fun b => b.playerid == p.playerid) =
      (playerBatting batting p.playerid).filter fun b =>
        (playerBatting batting p.playerid).all fun c => decide (c.yearid ≤ b.yearid) := by
    simp only [playerBatting, List.filter_filter]
    apply List.filter_congr
    intro b _
    cases hbe : b.playerid == p.playerid
    · simp [hbe]
    · have hbp : b.playerid = p.playerid := eq_of_beq hbe
      have hinner : (batting.filter fun c =>
          (c.playerid == b.playerid) &&
          ((people.filter fun q => q.finalyear.isNone).map fun q => q.playerid).contains
            c.playerid) = batting.filter fun c => c.playerid == p.playerid := by
        apply List.filter_congr
        intro c _
        rw [hbp]
        cases hce : c.playerid == p.playerid
        · rw [Bool.false_and]
        · rw [hcont c (eq_of_beq hce), Bool.true_and]
      have hact : (((people.filter fun q => q.finalyear.isNone).map
          fun q => q.playerid).contains b.playerid) = true := hcont b hbp
      rw [hact, hinner, Bool.true_and, Bool.and_true]
  simp only [players_exclusive_to, List.mem_filter]
  rw [mem_uniqueList, hfact2]
  constructor
  · rintro ⟨-, hqual⟩
    have hq : uniqueList ((mergeTeams teams
        ((playerBatting batting p.playerid).filter fun b =>
          (playerBatting batting p.playerid).all fun c =>
            decide (c.yearid ≤ b.yearid))).map fun r => r.2) = [some code] :=
      eq_of_beq hqual
    rw [uniqueList_eq_singleton] at hq
    obtain ⟨hvne, hvall⟩ := hq
    refine ⟨?_, hvall⟩
    intro hnil
    apply hvne
    rw [hnil]
    rfl
  · rintro ⟨hne, hvall⟩
    constructor
    · have hne2 : ((batting.filter fun b =>
          ((people.filter fun q => q.finalyear.isNone).map fun q => q.playerid).contains
            b.playerid).filter fun b =>
          ((batting.filter fun b2 =>
            ((people.filter fun q => q.finalyear.isNone).map fun q => q.playerid).contains
              b2.playerid).filter fun c => c.playerid == b.playerid).all fun c =>
            decide (c.yearid ≤ b.yearid)).filter (fun b => b.playerid == p.playerid) ≠ [] := by
        rw [hfact2]
        exact hne
      obtain ⟨b, hb, hbe⟩ := (filter_ne_nil_iff _ _).mp hne2
      exact List.mem_map.mpr ⟨b, hb, eq_of_beq hbe⟩
    · have hval : uniqueList ((mergeTeams teams
          ((playerBatting batting p.playerid).filter fun b =>
            (playerBatting batting p.playerid).all fun c =>
              decide (c.yearid ≤ b.yearid))).map fun r => r.2) = [some code] := by
        rw [uniqueList_eq_singleton]
        refine ⟨?_, hvall⟩
        rw [Ne, List.map_eq_nil_iff, mergeTeams_eq_nil]
        exact hne
      exact beq_iff_eq.mpr hval

/-- Witness for `C4_exclusive_latest_season`: an active player whose single
2020 row resolves to "BOS" satisfies the iff, and is indeed selected. -/
theorem C4_witness :
    ("p1" ∈ players_exclusive_to "BOS" [⟨"p1", "Ann", "Boston", none⟩]
        [⟨"p1", 2020, "TA"⟩] [⟨"TA", 2020, "BOS"⟩] ↔
      ((playerBatting [⟨"p1", 2020, "TA"⟩] "p1").filter fun b =>
          (playerBatting [⟨"p1", 2020, "TA"⟩] "p1").all fun c => c.yearid ≤ b.yearid) ≠ [] ∧
      ∀ v ∈ (mergeTeams [⟨"TA", 2020, "BOS"⟩]
          ((playerBatting [⟨"p1", 2020, "TA"⟩] "p1").filter fun b =>
            (playerBatting [⟨"p1", 2020, "TA"⟩] "p1").all fun c => c.yearid ≤ b.yearid)).map
          (fun r => r.2), v = some "BOS") ∧
    "p1" ∈ players_exclusive_to "BOS" [⟨"p1", "Ann", "Boston", none⟩]
      [⟨"p1", 2020, "TA"⟩] [⟨"TA", 2020, "BOS"⟩] :=
  ⟨C4_exclusive_latest_season "BOS" [⟨"p1", "Ann", "Boston", none⟩]
      [⟨"p1", 2020, "TA"⟩] [⟨"TA", 2020, "BOS"⟩] ⟨"p1", "Ann", "Boston", none⟩
      (by decide) rfl,
   by decide⟩
